import Mathlib

/-!
# crypt_bolt: the encrypted, compressed key/value store of `database.go`

A shallow embedding of `src/database.go` (package `crypt_bolt`).

* Go strings and byte slices are sequences of bytes (`Bytes`).
* A `*bolt.DB` is `Option BoltDB`: `none` is the nil pointer, `some h` a handle whose
  `opened` flag is cleared by `(*bolt.DB).Close`.
* A method of `*Database` mutates its receiver, so every operation returns the receiver
  after the call next to the values the Go method returns.  A call that panics (a nil
  pointer dereference inside a collaborator, or an explicit `panic(err)`) is `Outcome.panic`.
* The collaborators that are not part of this repository are taken as they are documented:
  the storage engine `github.com/boltdb/bolt` (section "Storage engine"), the cipher and the
  compressor of `github.com/sjsafranek/goutils` (structure `Codec`), the lock of
  `github.com/schollz/golock` and the file system (structure `Env`).
-/

namespace CryptBolt

/-! ## Bytes, strings and the library functions of `strings` and `unicode/utf8` -/

/-- One byte. -/
abbrev Byte := Fin 256

/-- A Go `string` or `[]byte`: a finite sequence of bytes. -/
abbrev Bytes := List Byte

/-- The bytes of an ASCII literal, for writing paths and names in examples. -/
def ascii (s : String) : Bytes := s.toList.map (fun ch => Fin.ofNat ch.toNat)

/-- Go `strings.HasSuffix(s, suffix)`. -/
def HasSuffix (s suffix : Bytes) : Bool := suffix.isSuffixOf s

/-- The scan of Go `strings.Replace(s, old, new, -1)` for a non-empty `old`: the
occurrences of `old` are replaced from left to right and do not overlap.  `skip` counts
the bytes of an occurrence that was just replaced and that are still to be passed over. -/
def replaceGo (old new : Bytes) : Nat → Bytes → Bytes
  | _, [] => []
  | skip + 1, _ :: rest => replaceGo old new skip rest
  | 0, b :: rest =>
    if old.isPrefixOf (b :: rest) then new ++ replaceGo old new (old.length - 1) rest
    else b :: replaceGo old new 0 rest

/-- Go `strings.Replace(s, old, new, -1)`, for a non-empty `old` (the only use in
`database.go` has `old = ".db"`). -/
def ReplaceAll (s old new : Bytes) : Bytes := replaceGo old new 0 s

/-- Whether the byte `b` lies within `lo..hi`. -/
def inRange (lo hi : Nat) (b : Byte) : Bool := decide (lo ≤ b.val) && decide (b.val ≤ hi)

/-- Go `utf8.ValidString`: the byte sequence is a concatenation of well-formed UTF-8
encodings (no overlong forms, no surrogates, nothing above U+10FFFF). -/
def ValidString : Bytes → Bool
  | [] => true
  | b0 :: rest =>
    if b0.val < 0x80 then ValidString rest
    else if inRange 0xC2 0xDF b0 then
      match rest with
      | b1 :: rest1 => inRange 0x80 0xBF b1 && ValidString rest1
      | _ => false
    else if inRange 0xE0 0xEF b0 then
      match rest with
      | b1 :: b2 :: rest2 =>
        (if b0.val = 0xE0 then inRange 0xA0 0xBF b1
         else if b0.val = 0xED then inRange 0x80 0x9F b1
         else inRange 0x80 0xBF b1)
        && inRange 0x80 0xBF b2 && ValidString rest2
      | _ => false
    else if inRange 0xF0 0xF4 b0 then
      match rest with
      | b1 :: b2 :: b3 :: rest3 =>
        (if b0.val = 0xF0 then inRange 0x90 0xBF b1
         else if b0.val = 0xF4 then inRange 0x80 0x8F b1
         else inRange 0x80 0xBF b1)
        && inRange 0x80 0xBF b2 && inRange 0x80 0xBF b3 && ValidString rest3
      | _ => false
    else false

/-! ## Errors and outcomes -/

/-- The error values that can leave the package.  Each constructor is one error site. -/
inductive Error where
  /-- `errors.New("Database not opened")`, the nil-handle guard of `Get`, `Set`, `Keys`, `Tables`. -/
  | notOpened
  /-- `errors.New("Bucket does not exist")`, in `Get`, `Set` and `Keys`. -/
  | bucketDoesNotExist
  /-- `errors.New("Not found")`, in `Get`. -/
  | notFound
  /-- `errors.New("Not utf-8")`, in `Get`. -/
  | notUtf8
  /-- `fmt.Errorf("Bucket %q not found!", table)`, in `Remove`. -/
  | bucketNotFound (table : Bytes)
  /-- `fmt.Errorf("Could not delete key: %s", err)`, in `Remove`. -/
  | couldNotDelete (err : Error)
  /-- `bolt.ErrDatabaseNotOpen` ("database not open"): a transaction on a closed handle. -/
  | boltDatabaseNotOpen
  /-- `bolt.ErrBucketNameRequired`: a bucket is created with a blank name. -/
  | boltBucketNameRequired
  /-- `bolt.ErrKeyRequired`: a blank key is inserted. -/
  | boltKeyRequired
  /-- `bolt.ErrKeyTooLarge`: the key is longer than `MaxKeySize`. -/
  | boltKeyTooLarge
  /-- `bolt.ErrValueTooLarge`: the value is longer than `MaxValueSize`. -/
  | boltValueTooLarge
  /-- An error reported by a collaborator (cipher, lock, file system), by code. -/
  | external (code : Nat)
  deriving DecidableEq, Repr

/-- How a call ends: it returns, or the goroutine panics. -/
inductive Outcome (α : Type) where
  | ret (a : α)
  | panic
  deriving DecidableEq, Repr

/-! ## Storage engine (`github.com/boltdb/bolt`)

A bucket is a list of key/value pairs kept in the byte order of the keys; the root of a
database is a list of named buckets kept in the byte order of the names.  The package
creates buckets only at the root and stores only plain values in them. -/

/-- Go `bytes.Compare(a, b) < 0`: the order in which the engine keeps and iterates keys. -/
def bytesLt : Bytes → Bytes → Bool
  | [], [] => false
  | [], _ :: _ => true
  | _ :: _, [] => false
  | a :: as, b :: bs => if a < b then true else if b < a then false else bytesLt as bs

/-- The value bound to `k` (the first entry with that key). -/
def kvGet {β : Type} : List (Bytes × β) → Bytes → Option β
  | [], _ => none
  | (k', v) :: rest, k => if k' = k then some v else kvGet rest k

/-- Bind `k` to `v`: an existing entry is overwritten in place, a new one is inserted
before the first greater key. -/
def kvPut {β : Type} : List (Bytes × β) → Bytes → β → List (Bytes × β)
  | [], k, v => [(k, v)]
  | (k', v') :: rest, k, v =>
    if k' = k then (k, v) :: rest
    else if bytesLt k k' then (k, v) :: (k', v') :: rest
    else (k', v') :: kvPut rest k v

/-- Remove the entry of `k`, if any. -/
def kvDel {β : Type} : List (Bytes × β) → Bytes → List (Bytes × β)
  | [], _ => []
  | (k', v') :: rest, k => if k' = k then kvDel rest k else (k', v') :: kvDel rest k

/-- Write a changed value back over the existing entry of `k`. -/
def kvReplace {β : Type} : List (Bytes × β) → Bytes → β → List (Bytes × β)
  | [], _, _ => []
  | (k', v') :: rest, k, v =>
    if k' = k then (k', v) :: rest else (k', v') :: kvReplace rest k v

/-- The keys in iteration order. -/
def kvKeys {β : Type} (m : List (Bytes × β)) : List Bytes := m.map Prod.fst

/-- The keys are strictly increasing in byte order (hence pairwise distinct). -/
def kvSorted {β : Type} (m : List (Bytes × β)) : Prop :=
  (kvKeys m).Pairwise (fun a b => bytesLt a b = true)

/-- A `*bolt.Bucket` of plain values. -/
abbrev Bucket := List (Bytes × Bytes)

/-- The root of a database: its named buckets. -/
abbrev Buckets := List (Bytes × Bucket)

/-- The invariant of the engine's contents: the table names are in strict byte order, and
so are the keys of every table. -/
def storeSorted (tx : Buckets) : Prop :=
  kvSorted tx ∧ ∀ e ∈ tx, kvSorted e.2

/-- `bolt.MaxKeySize`. -/
def MaxKeySize : Nat := 32768

/-- `bolt.MaxValueSize`. -/
def MaxValueSize : Nat := 2 ^ 31 - 2

/-- `(*bolt.Tx).Bucket(name)`: `none` is the nil bucket. -/
def Tx_Bucket (tx : Buckets) (name : Bytes) : Option Bucket := kvGet tx name

/-- `(*bolt.Tx).CreateBucketIfNotExists(name)` in a writable transaction: the root after
the call and the error. -/
def Tx_CreateBucketIfNotExists (tx : Buckets) (name : Bytes) : Buckets × Option Error :=
  if name.length = 0 then (tx, some .boltBucketNameRequired)
  else
    match kvGet tx name with
    | some _ => (tx, none)
    | none => (kvPut tx name [], none)

/-- `(*bolt.Bucket).Get(key)`: `none` is the nil slice returned for an absent key. -/
def Bucket_Get (b : Bucket) (key : Bytes) : Option Bytes := kvGet b key

/-- `(*bolt.Bucket).Put(key, value)` in a writable transaction: the bucket after the call
and the error. -/
def Bucket_Put (b : Bucket) (key value : Bytes) : Bucket × Option Error :=
  if key.length = 0 then (b, some .boltKeyRequired)
  else if key.length > MaxKeySize then (b, some .boltKeyTooLarge)
  else if value.length > MaxValueSize then (b, some .boltValueTooLarge)
  else (kvPut b key value, none)

/-- `(*bolt.Bucket).Delete(key)` in a writable transaction: deleting an absent key is not
an error. -/
def Bucket_Delete (b : Bucket) (key : Bytes) : Bucket × Option Error := (kvDel b key, none)

/-- The state behind a non-nil `*bolt.DB`. -/
structure BoltDB where
  /-- The file the handle was opened on. -/
  path : Bytes
  /-- Cleared by `Close`. -/
  opened : Bool
  /-- The committed contents. -/
  buckets : Buckets
  deriving DecidableEq, Repr

/-- `(*bolt.DB).View(fn)`: a read-only transaction.  On a nil handle the call dereferences
nil and panics; on a closed handle it returns `ErrDatabaseNotOpen` without running `fn`;
otherwise `fn` runs on the committed contents, yielding what it assigned to the variables
it captured (`ρ`) and its error.  A `none` result means `fn` did not run. -/
def DB_View {ρ : Type} (db : Option BoltDB) (fn : Buckets → ρ × Option Error) :
    Outcome (Option ρ × Option Error) :=
  match db with
  | none => .panic
  | some h =>
    if h.opened then
      let r := fn h.buckets
      .ret (some r.1, r.2)
    else .ret (none, some .boltDatabaseNotOpen)

/-- `(*bolt.DB).Update(fn)`: a read-write transaction.  On a nil handle the call
dereferences nil and panics; on a closed handle it returns `ErrDatabaseNotOpen`; otherwise
`fn` runs, and its writes are committed when it returns nil and rolled back when it
returns an error.  (A failing commit, an I/O fault, is outside the model.) -/
def DB_Update (db : Option BoltDB) (fn : Buckets → Buckets × Option Error) :
    Outcome (Option BoltDB × Option Error) :=
  match db with
  | none => .panic
  | some h =>
    if h.opened then
      match fn h.buckets with
      | (tx, none) => .ret (some { h with buckets := tx }, none)
      | (_, some err) => .ret (some h, some err)
    else .ret (some h, some .boltDatabaseNotOpen)

/-- `(*bolt.DB).Close()`: panics on a nil handle, otherwise leaves the handle closed. -/
def DB_Close (db : Option BoltDB) : Outcome (Option BoltDB) :=
  match db with
  | none => .panic
  | some h => .ret (some { h with opened := false })


/-! ## Collaborators of the package -/

/-- The cipher `cryptic` and the compressor `minify` of `github.com/sjsafranek/goutils`,
as the functions `database.go` calls.  `Encrypt` and `Decrypt` return a Go pair
`(string, error)`. -/
structure Codec where
  /-- `cryptic.Encrypt(passphrase, data)`. -/
  Encrypt : Bytes → Bytes → Bytes × Option Error
  /-- `cryptic.Decrypt(passphrase, data)`. -/
  Decrypt : Bytes → Bytes → Bytes × Option Error
  /-- `minify.CompressByte(data)`. -/
  CompressByte : Bytes → Bytes
  /-- `minify.DecompressByte(data)`. -/
  DecompressByte : Bytes → Bytes

/-- Modelled from the spec: the body of `transformers.ToByte` (package
`github.com/sjsafranek/goutils/transformers`) is not in `src/`; the spec states that a key
is "used verbatim as the byte-key in the storage engine", the raw bytes of the string. -/
def ToByte (s : Bytes) : Bytes := s

/-- What the lock library and the file system answer during `Open` and `Close`. -/
structure Env where
  /-- `(*golock.Lock).Lock()` on the lock file of that name: `none` when the lock is acquired. -/
  lock : Bytes → Option Error
  /-- `(*golock.Lock).Unlock()` on the lock file of that name. -/
  unlock : Bytes → Option Error
  /-- `bolt.Open(path, ...)`: the contents of the file, or the error. -/
  boltOpen : Bytes → Except Error Buckets

/-- A `*golock.Lock`, by the name of its lock file (`golock.OptionSetName`). -/
structure Lock where
  name : Bytes
  deriving DecidableEq, Repr

/-! ## `Database` and its methods -/

/-- `type Database struct { db *bolt.DB; glock *golock.Lock }`. -/
structure Database where
  db : Option BoltDB
  glock : Option Lock
  deriving DecidableEq, Repr

/-- `func (self *Database) Close()`. -/
def Close (env : Env) (self : Database) : Outcome Database :=
  match DB_Close self.db with
  | .panic => .panic
  | .ret db =>
    match self.glock with
    | none => .panic
    | some l =>
      match env.unlock l.name with
      | some _ => .panic
      | none => .ret { self with db := db }

/-- `func (self *Database) Open(db_file string) error`. -/
def Open (env : Env) (self : Database) (db_file : Bytes) : Outcome (Database × Option Error) :=
  let closed : Outcome Database :=
    if self.db ≠ none then Close env self else .ret self
  match closed with
  | .panic => .panic
  | .ret self =>
    let db_file := if !HasSuffix db_file (ascii ".db") then db_file ++ ascii ".db" else db_file
    let lock_file := ReplaceAll db_file (ascii ".db") (ascii ".lock")
    let self := { self with glock := some ⟨lock_file⟩ }
    match env.lock lock_file with
    | some _ => .panic
    | none =>
      match env.boltOpen db_file with
      | .ok buckets => .ret ({ self with db := some ⟨db_file, true, buckets⟩ }, none)
      | .error err => .ret ({ self with db := none }, some err)

/-- `func (self *Database) CreateTable(table_name string) error`. -/
def CreateTable (self : Database) (table_name : Bytes) : Outcome (Database × Option Error) :=
  match DB_Update self.db (fun tx => Tx_CreateBucketIfNotExists tx table_name) with
  | .panic => .panic
  | .ret (db, err) => .ret ({ self with db := db }, err)

/-- The function literal that `Get` passes to `View`: the value it leaves in the captured
`result` and the error it returns. -/
def getFn (c : Codec) (table key passphrase : Bytes) (tx : Buckets) : Bytes × Option Error :=
  match Tx_Bucket tx table with
  | none => ([], some .bucketDoesNotExist)
  | some b =>
    let v := (Bucket_Get b (ToByte key)).getD []
    let decompressed := c.DecompressByte v
    let garbage := decompressed
    if garbage = [] then ([], some .notFound)
    else
      let (result, err) := c.Decrypt passphrase garbage
      if err = none ∧ ValidString result = false then (result, some .notUtf8)
      else (result, err)

/-- `func (self *Database) Get(table, key, passphrase string) (string, error)`.  The
returned `result` is read after `View` has run, as the Go compiler orders
`return result, self.db.View(...)`. -/
def Get (c : Codec) (self : Database) (table key passphrase : Bytes) :
    Outcome (Database × Bytes × Option Error) :=
  if self.db = none then .ret (self, [], some .notOpened)
  else
    match DB_View self.db (getFn c table key passphrase) with
    | .panic => .panic
    | .ret (r, err) => .ret (self, r.getD [], err)

/-- The function literal that `Set` passes to `Update`. -/
def setFn (c : Codec) (table key value passphrase : Bytes) (tx : Buckets) :
    Buckets × Option Error :=
  let (garbage, err) := c.Encrypt passphrase value
  if err ≠ none then (tx, err)
  else
    match Tx_Bucket tx table with
    | none => (tx, some .bucketDoesNotExist)
    | some b =>
      let compressed := c.CompressByte garbage
      let (b, err) := Bucket_Put b (ToByte key) compressed
      (kvReplace tx table b, err)

/-- `func (self *Database) Set(table, key, value, passphrase string) error`. -/
def Set (c : Codec) (self : Database) (table key value passphrase : Bytes) :
    Outcome (Database × Option Error) :=
  if self.db = none then .ret (self, some .notOpened)
  else
    match DB_Update self.db (setFn c table key value passphrase) with
    | .panic => .panic
    | .ret (db, err) => .ret ({ self with db := db }, err)

/-- The function literal that `Keys` passes to `View`: `ForEach` appends every key. -/
def keysFn (table : Bytes) (tx : Buckets) : List Bytes × Option Error :=
  match Tx_Bucket tx table with
  | none => ([], some .bucketDoesNotExist)
  | some b => (kvKeys b, none)

/-- `func (self *Database) Keys(table string) ([]string, error)`. -/
def Keys (self : Database) (table : Bytes) : Outcome (Database × List Bytes × Option Error) :=
  if self.db = none then .ret (self, [], some .notOpened)
  else
    match DB_View self.db (keysFn table) with
    | .panic => .panic
    | .ret (r, err) => .ret (self, r.getD [], err)

/-- The function literal that `Remove` passes to `Update`. -/
def removeFn (table key : Bytes) (tx : Buckets) : Buckets × Option Error :=
  match Tx_Bucket tx table with
  | none => (tx, some (.bucketNotFound table))
  | some bucket =>
    match Bucket_Delete bucket key with
    | (_, some err) => (tx, some (.couldNotDelete err))
    | (bucket, none) => (kvReplace tx table bucket, none)

/-- `func (self *Database) Remove(table string, key string, passphrase string) error`. -/
def Remove (self : Database) (table key _passphrase : Bytes) :
    Outcome (Database × Option Error) :=
  match DB_Update self.db (removeFn table key) with
  | .panic => .panic
  | .ret (db, err) => .ret ({ self with db := db }, err)

/-- The function literal that `Tables` passes to `View`: `ForEach` appends every name. -/
def tablesFn (tx : Buckets) : List Bytes × Option Error := (kvKeys tx, none)

/-- `func (self *Database) Tables() ([]string, error)`. -/
def Tables (self : Database) : Outcome (Database × List Bytes × Option Error) :=
  if self.db = none then .ret (self, [], some .notOpened)
  else
    match DB_View self.db tablesFn with
    | .panic => .panic
    | .ret (r, err) => .ret (self, r.getD [], err)

/-! ## Concrete collaborators for closed examples -/

/-- A codec that stores text as it is: every transform is the identity and none fails. -/
def plainCodec : Codec where
  Encrypt := fun _ data => (data, none)
  Decrypt := fun _ data => (data, none)
  CompressByte := fun data => data
  DecompressByte := fun data => data

/-- A cipher that shifts every byte by the first byte of the passphrase: reversible under
the right passphrase, silent under a wrong one. -/
def shiftCodec : Codec where
  Encrypt := fun passphrase data => (data.map (fun x => x + passphrase.headD 0), none)
  Decrypt := fun passphrase data => (data.map (fun x => x - passphrase.headD 0), none)
  CompressByte := fun data => data
  DecompressByte := fun data => data

/-- A cipher whose `Encrypt` always reports an error. -/
def failingCodec : Codec where
  Encrypt := fun _ _ => ([], some (.external 1))
  Decrypt := fun _ _ => ([], some (.external 2))
  CompressByte := fun data => data
  DecompressByte := fun data => data

/-- An environment in which the lock is free and the database file is new. -/
def freshEnv : Env where
  lock := fun _ => none
  unlock := fun _ => none
  boltOpen := fun _ => .ok []

/-- An open store with the single empty table `users`. -/
def usersDb : Database :=
  { db := some ⟨ascii "app.db", true, [(ascii "users", [])]⟩, glock := some ⟨ascii "app.lock"⟩ }


/-! ## Lemmas on the key/value lists of the engine -/

theorem kvGet_kvPut_self {β : Type} (m : List (Bytes × β)) (k : Bytes) (v : β) :
    kvGet (kvPut m k v) k = some v := by
  induction m with
  | nil => simp [kvPut, kvGet]
  | cons e rest ih =>
    obtain ⟨k', v'⟩ := e
    by_cases h1 : k' = k
    · simp [kvPut, kvGet, h1]
    · by_cases h2 : bytesLt k k' = true
      · simp [kvPut, kvGet, h1, h2]
      · simp [kvPut, kvGet, h1, h2, ih]

theorem kvGet_kvPut_ne {β : Type} (m : List (Bytes × β)) (k j : Bytes) (v : β) (h : j ≠ k) :
    kvGet (kvPut m k v) j = kvGet m j := by
  have hkj : ¬ k = j := fun e => h e.symm
  induction m with
  | nil => simp [kvPut, kvGet, hkj]
  | cons e rest ih =>
    obtain ⟨k', v'⟩ := e
    by_cases h1 : k' = k
    · subst h1
      simp [kvPut, kvGet, hkj]
    · by_cases h2 : bytesLt k k' = true
      · simp [kvPut, kvGet, h1, h2, hkj]
      · by_cases h3 : k' = j
        · subst h3
          simp [kvPut, kvGet, h1, h2]
        · simp [kvPut, kvGet, h1, h2, h3, ih]

theorem kvGet_kvReplace_self {β : Type} (m : List (Bytes × β)) (k : Bytes) (v v0 : β)
    (h : kvGet m k = some v0) : kvGet (kvReplace m k v) k = some v := by
  induction m with
  | nil => simp [kvGet] at h
  | cons e rest ih =>
    obtain ⟨k', v'⟩ := e
    by_cases h1 : k' = k
    · simp [kvReplace, kvGet, h1]
    · simp only [kvGet, h1, if_false] at h
      simp [kvReplace, kvGet, h1, ih h]

theorem kvGet_kvReplace_ne {β : Type} (m : List (Bytes × β)) (k j : Bytes) (v : β)
    (h : j ≠ k) : kvGet (kvReplace m k v) j = kvGet m j := by
  induction m with
  | nil => simp [kvReplace, kvGet]
  | cons e rest ih =>
    obtain ⟨k', v'⟩ := e
    by_cases h1 : k' = k
    · subst h1
      have h3 : ¬ k' = j := fun e => h e.symm
      simp [kvReplace, kvGet, h3]
    · by_cases h3 : k' = j
      · subst h3
        simp [kvReplace, kvGet, h1]
      · simp [kvReplace, kvGet, h1, h3, ih]

theorem kvKeys_kvReplace {β : Type} (m : List (Bytes × β)) (k : Bytes) (v : β) :
    kvKeys (kvReplace m k v) = kvKeys m := by
  induction m with
  | nil => simp [kvReplace, kvKeys]
  | cons e rest ih =>
    obtain ⟨k', v'⟩ := e
    by_cases h1 : k' = k
    · simp [kvReplace, kvKeys, h1]
    · simp only [kvKeys] at ih
      simp [kvReplace, kvKeys, h1, ih]

theorem kvReplace_same {β : Type} (m : List (Bytes × β)) (k : Bytes) (v : β)
    (h : kvGet m k = some v) : kvReplace m k v = m := by
  induction m with
  | nil => simp [kvReplace]
  | cons e rest ih =>
    obtain ⟨k', v'⟩ := e
    by_cases h1 : k' = k
    · simp only [kvGet, h1, if_true, Option.some.injEq] at h
      simp [kvReplace, h1, h]
    · simp only [kvGet, h1, if_false] at h
      simp [kvReplace, h1, ih h]

theorem kvGet_kvDel_self {β : Type} (m : List (Bytes × β)) (k : Bytes) :
    kvGet (kvDel m k) k = none := by
  induction m with
  | nil => simp [kvDel, kvGet]
  | cons e rest ih =>
    obtain ⟨k', v'⟩ := e
    by_cases h1 : k' = k
    · simp [kvDel, h1, ih]
    · simp [kvDel, h1, kvGet, ih]

theorem kvDel_absent {β : Type} (m : List (Bytes × β)) (k : Bytes)
    (h : kvGet m k = none) : kvDel m k = m := by
  induction m with
  | nil => simp [kvDel]
  | cons e rest ih =>
    obtain ⟨k', v'⟩ := e
    by_cases h1 : k' = k
    · simp [kvGet, h1] at h
    · simp only [kvGet, h1, if_false] at h
      simp [kvDel, h1, ih h]

theorem kvGet_none_not_mem {β : Type} (m : List (Bytes × β)) (k : Bytes)
    (h : kvGet m k = none) : k ∉ kvKeys m := by
  induction m with
  | nil => simp [kvKeys]
  | cons e rest ih =>
    obtain ⟨k', v'⟩ := e
    by_cases h1 : k' = k
    · simp [kvGet, h1] at h
    · simp only [kvGet, h1, if_false] at h
      have := ih h
      simp only [kvKeys] at this
      simp only [kvKeys, List.map_cons, List.mem_cons, not_or]
      exact ⟨fun e => h1 e.symm, this⟩

theorem kvGet_some_mem {β : Type} (m : List (Bytes × β)) (k : Bytes) (v : β)
    (h : kvGet m k = some v) : k ∈ kvKeys m := by
  induction m with
  | nil => simp [kvGet] at h
  | cons e rest ih =>
    obtain ⟨k', v'⟩ := e
    by_cases h1 : k' = k
    · simp [kvKeys, h1]
    · simp only [kvGet, h1, if_false] at h
      have := ih h
      simp only [kvKeys] at this
      simp [kvKeys, this]

theorem kvKeys_kvPut_perm {β : Type} (m : List (Bytes × β)) (k : Bytes) (v : β)
    (h : kvGet m k = none) : (kvKeys (kvPut m k v)).Perm (k :: kvKeys m) := by
  induction m with
  | nil => simp [kvPut, kvKeys]
  | cons e rest ih =>
    obtain ⟨k', v'⟩ := e
    by_cases h1 : k' = k
    · simp [kvGet, h1] at h
    · simp only [kvGet, h1, if_false] at h
      by_cases h2 : bytesLt k k' = true
      · simp [kvPut, kvKeys, h1, h2]
      · have := ih h
        simp only [kvKeys] at this
        simp only [kvPut, h1, h2, if_false, kvKeys, List.map_cons]
        exact (List.Perm.cons k' this).trans (List.Perm.swap k k' _)

theorem bytesLt_irrefl (a : Bytes) : bytesLt a a = false := by
  induction a with
  | nil => simp [bytesLt]
  | cons x xs ih => simp [bytesLt, ih]

theorem kvSorted_nodup {β : Type} (m : List (Bytes × β)) (h : kvSorted m) :
    (kvKeys m).Nodup := by
  unfold kvSorted at h
  refine List.Pairwise.imp ?_ h
  intro a b hab e
  subst e
  simp [bytesLt_irrefl] at hab


theorem count_eq_one_of_nodup_mem (l : List Bytes) (k : Bytes) (hn : l.Nodup)
    (hm : k ∈ l) : l.count k = 1 := by
  induction l with
  | nil => simp at hm
  | cons a rest ih =>
    rw [List.nodup_cons] at hn
    by_cases h : a = k
    · subst h
      simp [List.count_cons, List.count_eq_zero_of_not_mem hn.1]
    · have hm1 : k ∈ rest := by
        rcases List.mem_cons.mp hm with h1 | h1
        · exact absurd h1.symm h
        · exact h1
      simp [List.count_cons, h, ih hn.2 hm1]

/-! ## The order of the keys is an invariant -/

theorem bytesLt_trans (a b c : Bytes) (h1 : bytesLt a b = true) (h2 : bytesLt b c = true) :
    bytesLt a c = true := by
  induction a generalizing b c with
  | nil =>
    cases b with
    | nil => simp [bytesLt] at h1
    | cons y ys =>
      cases c with
      | nil => simp [bytesLt] at h2
      | cons z zs => simp [bytesLt]
  | cons x xs ih =>
    cases b with
    | nil => simp [bytesLt] at h1
    | cons y ys =>
      cases c with
      | nil => simp [bytesLt] at h2
      | cons z zs =>
        simp only [bytesLt] at h1 h2 ⊢
        rcases lt_trichotomy x y with hxy | hxy | hxy
        · rcases lt_trichotomy y z with hyz | hyz | hyz
          · simp [lt_trans hxy hyz]
          · subst hyz
            simp [hxy]
          · simp [hyz, not_lt_of_gt hyz] at h2
        · subst hxy
          rcases lt_trichotomy x z with hyz | hyz | hyz
          · simp [hyz]
          · subst hyz
            simp only [lt_self_iff_false, if_false] at h1 h2 ⊢
            exact ih ys zs h1 h2
          · simp [hyz, not_lt_of_gt hyz] at h2
        · simp [hxy, not_lt_of_gt hxy] at h1

theorem bytesLt_total (a b : Bytes) (hne : a ≠ b) (h : bytesLt a b = false) :
    bytesLt b a = true := by
  induction a generalizing b with
  | nil =>
    cases b with
    | nil => exact absurd rfl hne
    | cons y ys => simp [bytesLt] at h
  | cons x xs ih =>
    cases b with
    | nil => simp [bytesLt]
    | cons y ys =>
      simp only [bytesLt] at h ⊢
      rcases lt_trichotomy x y with hxy | hxy | hxy
      · simp [hxy] at h
      · subst hxy
        simp only [lt_self_iff_false, if_false] at h ⊢
        exact ih ys (fun e => hne (by rw [e])) h
      · simp [hxy]

theorem kvKeys_kvPut_mem {β : Type} (m : List (Bytes × β)) (k : Bytes) (v : β) (a : Bytes) :
    a ∈ List.map Prod.fst (kvPut m k v) ↔ a ∈ k :: List.map Prod.fst m := by
  induction m with
  | nil => simp [kvPut]
  | cons e rest ih =>
    obtain ⟨k', v'⟩ := e
    by_cases h1 : k' = k
    · subst h1
      simp [kvPut]
    · by_cases h2 : bytesLt k k' = true
      · simp [kvPut, h1, h2]
      · simp only [kvPut, h1, h2, if_false, Bool.false_eq_true, List.map_cons, List.mem_cons, ih]
        tauto

theorem kvPut_sorted {β : Type} (m : List (Bytes × β)) (k : Bytes) (v : β)
    (h : kvSorted m) : kvSorted (kvPut m k v) := by
  induction m with
  | nil => simp [kvSorted, kvKeys, kvPut]
  | cons e rest ih =>
    obtain ⟨k', v'⟩ := e
    simp only [kvSorted, kvKeys, List.map_cons, List.pairwise_cons] at h ih ⊢
    by_cases h1 : k' = k
    · subst h1
      simp only [kvPut, if_true, List.map_cons, List.pairwise_cons]
      exact h
    · by_cases h2 : bytesLt k k' = true
      · simp only [kvPut, h1, h2, if_false, if_true, List.map_cons, List.pairwise_cons]
        refine ⟨?_, h⟩
        intro a ha
        rcases List.mem_cons.mp ha with rfl | ha
        · exact h2
        · exact bytesLt_trans k k' a h2 (h.1 a ha)
      · simp only [kvPut, h1, h2, if_false, Bool.false_eq_true, List.map_cons,
          List.pairwise_cons]
        refine ⟨?_, ih h.2⟩
        intro a ha
        have hmem : a ∈ k :: List.map Prod.fst rest :=
          (kvKeys_kvPut_mem rest k v a).mp ha
        rcases List.mem_cons.mp hmem with rfl | ha
        · exact bytesLt_total a k' (fun e => h1 e.symm) (by simpa using h2)
        · exact h.1 a ha

theorem kvDel_sorted {β : Type} (m : List (Bytes × β)) (k : Bytes)
    (h : kvSorted m) : kvSorted (kvDel m k) := by
  induction m with
  | nil => simp [kvSorted, kvKeys, kvDel]
  | cons e rest ih =>
    obtain ⟨k', v'⟩ := e
    simp only [kvSorted, kvKeys, List.map_cons, List.pairwise_cons] at h ih ⊢
    have hsub : ∀ a, a ∈ List.map Prod.fst (kvDel rest k) → a ∈ List.map Prod.fst rest := by
      intro a
      clear ih h
      induction rest with
      | nil => simp [kvDel]
      | cons e2 rest2 ih2 =>
        obtain ⟨k2, v2⟩ := e2
        by_cases h3 : k2 = k
        · simp only [kvDel, h3, if_true, List.map_cons, List.mem_cons]
          intro ha
          exact Or.inr (ih2 ha)
        · simp only [kvDel, h3, if_false, List.map_cons, List.mem_cons]
          rintro (ha | ha)
          · exact Or.inl ha
          · exact Or.inr (ih2 ha)
    by_cases h1 : k' = k
    · simp only [kvDel, h1, if_true]
      exact ih h.2
    · simp only [kvDel, h1, if_false, List.map_cons, List.pairwise_cons]
      exact ⟨fun a ha => h.1 a (hsub a ha), ih h.2⟩

theorem kvReplace_sorted {β : Type} (m : List (Bytes × β)) (k : Bytes) (v : β)
    (h : kvSorted m) : kvSorted (kvReplace m k v) := by
  unfold kvSorted
  rw [kvKeys_kvReplace]
  exact h

theorem kvGet_some_mem_pair {β : Type} (m : List (Bytes × β)) (k : Bytes) (v : β)
    (h : kvGet m k = some v) : (k, v) ∈ m := by
  induction m with
  | nil => simp [kvGet] at h
  | cons e rest ih =>
    obtain ⟨k', v'⟩ := e
    by_cases h1 : k' = k
    · simp only [kvGet, h1, if_true, Option.some.injEq] at h
      simp [h1, h]
    · simp only [kvGet, h1, if_false] at h
      exact List.mem_cons_of_mem _ (ih h)

theorem mem_kvReplace {β : Type} (m : List (Bytes × β)) (k : Bytes) (v : β) (e : Bytes × β)
    (h : e ∈ kvReplace m k v) : e ∈ m ∨ e.2 = v := by
  induction m with
  | nil => simp [kvReplace] at h
  | cons e0 rest ih =>
    obtain ⟨k', v'⟩ := e0
    by_cases h1 : k' = k
    · simp only [kvReplace, h1, if_true, List.mem_cons] at h
      rcases h with h | h
      · exact Or.inr (by rw [h])
      · exact Or.inl (List.mem_cons_of_mem _ h)
    · simp only [kvReplace, h1, if_false, List.mem_cons] at h
      rcases h with h | h
      · exact Or.inl (by rw [h]; exact List.mem_cons_self _ _)
      · rcases ih h with h2 | h2
        · exact Or.inl (List.mem_cons_of_mem _ h2)
        · exact Or.inr h2

theorem mem_kvPut {β : Type} (m : List (Bytes × β)) (k : Bytes) (v : β) (e : Bytes × β)
    (h : e ∈ kvPut m k v) : e ∈ m ∨ e = (k, v) := by
  induction m with
  | nil =>
    simp only [kvPut, List.mem_singleton] at h
    exact Or.inr h
  | cons e0 rest ih =>
    obtain ⟨k', v'⟩ := e0
    by_cases h1 : k' = k
    · simp only [kvPut, h1, if_true, List.mem_cons] at h
      rcases h with h | h
      · exact Or.inr h
      · exact Or.inl (List.mem_cons_of_mem _ h)
    · by_cases h2 : bytesLt k k' = true
      · simp only [kvPut, h1, h2, if_false, if_true, List.mem_cons] at h
        rcases h with h | h | h
        · exact Or.inr h
        · exact Or.inl (by rw [h]; exact List.mem_cons_self _ _)
        · exact Or.inl (List.mem_cons_of_mem _ h)
      · simp only [kvPut, h1, h2, if_false, Bool.false_eq_true, List.mem_cons] at h
        rcases h with h | h
        · exact Or.inl (by rw [h]; exact List.mem_cons_self _ _)
        · rcases ih h with h3 | h3
          · exact Or.inl (List.mem_cons_of_mem _ h3)
          · exact Or.inr h3

/-- The invariant `storeSorted` is kept by what `CreateTable`, `Set` and `Remove` write in
their transactions. -/
theorem storeSorted_preserved (c : Codec) (tx : Buckets) (table key value passphrase : Bytes)
    (h : storeSorted tx) :
    storeSorted (Tx_CreateBucketIfNotExists tx table).1 ∧
    storeSorted (setFn c table key value passphrase tx).1 ∧
    storeSorted (removeFn table key tx).1 := by
  have hrep : ∀ b' : Bucket, kvSorted b' → storeSorted (kvReplace tx table b') := by
    intro b' hb'
    refine ⟨kvReplace_sorted tx table b' h.1, ?_⟩
    intro e he
    rcases mem_kvReplace tx table b' e he with h1 | h1
    · exact h.2 e h1
    · rw [h1]
      exact hb'
  refine ⟨?_, ?_, ?_⟩
  · unfold Tx_CreateBucketIfNotExists
    split
    · exact h
    · split
      · exact h
      · refine ⟨kvPut_sorted tx table [] h.1, ?_⟩
        intro e he
        rcases mem_kvPut tx table [] e he with h1 | h1
        · exact h.2 e h1
        · rw [h1]
          simp [kvSorted, kvKeys]
  · unfold setFn
    cases henc : c.Encrypt passphrase value with
    | mk garbage err =>
      simp only
      split
      · exact h
      · cases hb : Tx_Bucket tx table with
        | none => exact h
        | some b =>
          simp only
          have hbs : kvSorted b := h.2 (table, b) (kvGet_some_mem_pair tx table b hb)
          apply hrep
          unfold Bucket_Put
          split
          · exact hbs
          · split
            · exact hbs
            · split
              · exact hbs
              · exact kvPut_sorted b _ _ hbs
  · unfold removeFn
    cases hb : Tx_Bucket tx table with
    | none => exact h
    | some b =>
      simp only [Bucket_Delete]
      exact hrep _ (kvDel_sorted b key (h.2 (table, b) (kvGet_some_mem_pair tx table b hb)))

/-! ## How the operations run on an open store -/

/-- On an open store `Set` always returns, the store stays open on the same file and with
the same lock, and a table that existed still exists. -/
theorem Set_open (c : Codec) (path : Bytes) (tx : Buckets) (g : Option Lock)
    (table key value passphrase : Bytes) (b : Bucket) (hb : Tx_Bucket tx table = some b) :
    ∃ tx1 b1 err, Set c ⟨some ⟨path, true, tx⟩, g⟩ table key value passphrase
        = .ret (⟨some ⟨path, true, tx1⟩, g⟩, err) ∧ Tx_Bucket tx1 table = some b1 := by
  unfold Tx_Bucket at hb
  cases hfn : setFn c table key value passphrase tx with
  | mk tx1 err =>
    cases err with
    | some e =>
      refine ⟨tx, b, some e, ?_, hb⟩
      simp [Set, DB_Update, hfn]
    | none =>
      have hset : Set c ⟨some ⟨path, true, tx⟩, g⟩ table key value passphrase
          = .ret (⟨some ⟨path, true, tx1⟩, g⟩, none) := by
        simp [Set, DB_Update, hfn]
      cases henc : c.Encrypt passphrase value with
      | mk garbage e =>
        by_cases he : e = none
        · subst he
          simp only [setFn, henc, Tx_Bucket, hb, ne_eq, not_true_eq_false, if_false,
            Prod.mk.injEq] at hfn
          refine ⟨tx1, (Bucket_Put b (ToByte key) (c.CompressByte garbage)).1, none, hset, ?_⟩
          rw [← hfn.1]
          exact kvGet_kvReplace_self tx table _ b hb
        · simp [setFn, henc, he] at hfn

/-- When the cipher and the engine accept the write, `Set` on an open store binds the key
to the compressed ciphertext in its table and reports no error. -/
theorem Set_stores (c : Codec) (path : Bytes) (tx : Buckets) (g : Option Lock)
    (table key value passphrase ct : Bytes) (b : Bucket)
    (hb : Tx_Bucket tx table = some b)
    (hk0 : 0 < (ToByte key).length) (hk1 : (ToByte key).length ≤ MaxKeySize)
    (henc : c.Encrypt passphrase value = (ct, none))
    (hv : (c.CompressByte ct).length ≤ MaxValueSize) :
    Set c ⟨some ⟨path, true, tx⟩, g⟩ table key value passphrase
      = .ret (⟨some ⟨path, true,
          kvReplace tx table (kvPut b (ToByte key) (c.CompressByte ct))⟩, g⟩, none) := by
  have h0 : ¬ (ToByte key).length = 0 := by omega
  have h1 : ¬ (ToByte key).length > MaxKeySize := by omega
  have h2 : ¬ (c.CompressByte ct).length > MaxValueSize := by omega
  simp [Set, DB_Update, setFn, henc, hb, Bucket_Put, h0, h1, h2]

/-- When the cipher succeeds and the key is longer than `MaxKeySize`, `Set` on an open
store returns the engine's `ErrKeyTooLarge` and the transaction is rolled back. -/
theorem Set_key_too_large (c : Codec) (path : Bytes) (tx : Buckets) (g : Option Lock)
    (table key value passphrase ct : Bytes) (b : Bucket)
    (hb : Tx_Bucket tx table = some b)
    (hk : MaxKeySize < (ToByte key).length)
    (henc : c.Encrypt passphrase value = (ct, none)) :
    Set c ⟨some ⟨path, true, tx⟩, g⟩ table key value passphrase
      = .ret (⟨some ⟨path, true, tx⟩, g⟩, some .boltKeyTooLarge) := by
  have h0 : ¬ (ToByte key).length = 0 := by
    unfold MaxKeySize at hk
    omega
  simp [Set, DB_Update, setFn, henc, hb, Bucket_Put, h0, hk]

/-- What `Get` returns on an open store whose table `table` binds `key` to `stored`. -/
theorem Get_stored (c : Codec) (path : Bytes) (tx : Buckets) (g : Option Lock)
    (table key passphrase stored : Bytes) (b : Bucket)
    (hb : Tx_Bucket tx table = some b) (hv : Bucket_Get b (ToByte key) = some stored) :
    Get c ⟨some ⟨path, true, tx⟩, g⟩ table key passphrase
      = .ret (⟨some ⟨path, true, tx⟩, g⟩,
          if c.DecompressByte stored = [] then ([], some Error.notFound)
          else if (c.Decrypt passphrase (c.DecompressByte stored)).2 = none ∧
              ValidString (c.Decrypt passphrase (c.DecompressByte stored)).1 = false
            then ((c.Decrypt passphrase (c.DecompressByte stored)).1, some Error.notUtf8)
            else c.Decrypt passphrase (c.DecompressByte stored)) := by
  simp only [Get, DB_View, getFn, hb, hv, Option.getD_some]
  by_cases h1 : c.DecompressByte stored = []
  · simp [h1]
  · by_cases h2 : (c.Decrypt passphrase (c.DecompressByte stored)).2 = none ∧
        ValidString (c.Decrypt passphrase (c.DecompressByte stored)).1 = false
    · simp [h1, h2]
    · simp [h1, h2]


/-- What `Remove` does on an open store whose table exists. -/
theorem Remove_open (path : Bytes) (tx : Buckets) (g : Option Lock)
    (table key passphrase : Bytes) (b : Bucket) (hb : Tx_Bucket tx table = some b) :
    Remove ⟨some ⟨path, true, tx⟩, g⟩ table key passphrase
      = .ret (⟨some ⟨path, true, kvReplace tx table (kvDel b key)⟩, g⟩, none) := by
  simp [Remove, DB_Update, removeFn, hb, Bucket_Delete]

/-! ## The claims -/

/-- Claim C1, amended: on an open store with table `T`, for a key of 1 to `MaxKeySize`
bytes, a valid UTF-8 value `V` and a passphrase `P` such that `Encrypt(P, V)` succeeds
with a non-empty ciphertext whose compressed form the engine accepts, that the compressor
restores and that `Decrypt(P, ·)` maps back to `V`: `Set(T,K,V,P)` succeeds and `Get(T,K,P)`
on the resulting store succeeds and returns exactly `V`. -/
theorem C1_round_trip (c : Codec) (path : Bytes) (tx : Buckets) (g : Option Lock)
    (T K V P ct : Bytes) (b : Bucket)
    (hT : Tx_Bucket tx T = some b)
    (hK0 : 0 < K.length) (hK1 : K.length ≤ MaxKeySize)
    (hV : ValidString V = true)
    (henc : c.Encrypt P V = (ct, none))
    (hct : ct ≠ [])
    (hsize : (c.CompressByte ct).length ≤ MaxValueSize)
    (hzip : c.DecompressByte (c.CompressByte ct) = ct)
    (hdec : c.Decrypt P ct = (V, none)) :
    ∃ s1, Set c ⟨some ⟨path, true, tx⟩, g⟩ T K V P = .ret (s1, none) ∧
      Get c s1 T K P = .ret (s1, V, none) := by
  refine ⟨_, Set_stores c path tx g T K V P ct b hT hK0 hK1 henc hsize, ?_⟩
  rw [Get_stored c path _ g T K P (c.CompressByte ct) (kvPut b (ToByte K) (c.CompressByte ct))
    (kvGet_kvReplace_self tx T _ b hT) (kvGet_kvPut_self b (ToByte K) _)]
  simp [hzip, hct, hdec, hV]

/-- Witness of C1: the scenario of the spec with the identity codec. -/
theorem C1_round_trip_witness :
    ∃ s1, Set plainCodec usersDb (ascii "users") (ascii "alice") (ascii "secret-token")
        (ascii "pw123") = .ret (s1, none) ∧
      Get plainCodec s1 (ascii "users") (ascii "alice") (ascii "pw123")
        = .ret (s1, ascii "secret-token", none) :=
  C1_round_trip plainCodec (ascii "app.db") [(ascii "users", [])] (some ⟨ascii "app.lock"⟩)
    (ascii "users") (ascii "alice") (ascii "secret-token") (ascii "pw123")
    (ascii "secret-token") [] (by decide) (by decide) (by decide) (by decide) rfl
    (by decide) (by decide) rfl rfl

/-- Counterexample to C1 as stated: the identity codec is reversible, the empty value is
valid UTF-8, the key and the passphrase are non-empty, `Set` succeeds, and yet `Get` fails
with "Not found", because the stored ciphertext decompresses to the empty string. -/
theorem C1_counterexample :
    (∀ P V : Bytes, plainCodec.Decrypt P (plainCodec.Encrypt P V).1 = (V, none)) ∧
    (∀ x : Bytes, plainCodec.DecompressByte (plainCodec.CompressByte x) = x) ∧
    ValidString [] = true ∧
    ∃ s1, Set plainCodec usersDb (ascii "users") (ascii "alice") [] (ascii "pw123")
        = .ret (s1, none) ∧
      Get plainCodec s1 (ascii "users") (ascii "alice") (ascii "pw123")
        = .ret (s1, [], some .notFound) := by
  refine ⟨fun _ _ => rfl, fun _ => rfl, by decide, ?_⟩
  exact ⟨⟨some ⟨ascii "app.db", true, [(ascii "users", [(ascii "alice", [])])]⟩,
    some ⟨ascii "app.lock"⟩⟩, by decide, by decide⟩

/-- Claim C2, amended: after a successful `Set(T,K,V,P1)`, with `garbage` the decompressed
stored bytes and `(r, e)` what `Decrypt(P2, garbage)` returns, `Get(T,K,P2)` returns `r`
with the cipher's error when `e` is an error, `r` with "Not utf-8" when `e` is nil and `r`
is not valid UTF-8, and `r` with a nil error when `e` is nil and `r` is valid UTF-8; when
`garbage` is empty it fails with "Not found". -/
theorem C2_wrong_passphrase (c : Codec) (path : Bytes) (tx : Buckets) (g : Option Lock)
    (T K V P1 P2 ct garbage r : Bytes) (e : Option Error) (b : Bucket)
    (hT : Tx_Bucket tx T = some b)
    (hK0 : 0 < K.length) (hK1 : K.length ≤ MaxKeySize)
    (henc : c.Encrypt P1 V = (ct, none))
    (hsize : (c.CompressByte ct).length ≤ MaxValueSize)
    (hzip : c.DecompressByte (c.CompressByte ct) = garbage)
    (hdec : c.Decrypt P2 garbage = (r, e)) :
    ∃ s1, Set c ⟨some ⟨path, true, tx⟩, g⟩ T K V P1 = .ret (s1, none) ∧
      (garbage ≠ [] → ∀ err, e = some err → Get c s1 T K P2 = .ret (s1, r, some err)) ∧
      (garbage ≠ [] → e = none → ValidString r = false →
        Get c s1 T K P2 = .ret (s1, r, some .notUtf8)) ∧
      (garbage ≠ [] → e = none → ValidString r = true →
        Get c s1 T K P2 = .ret (s1, r, none)) ∧
      (garbage = [] → Get c s1 T K P2 = .ret (s1, [], some .notFound)) := by
  refine ⟨_, Set_stores c path tx g T K V P1 ct b hT hK0 hK1 henc hsize, ?_⟩
  rw [Get_stored c path _ g T K P2 (c.CompressByte ct) (kvPut b (ToByte K) (c.CompressByte ct))
    (kvGet_kvReplace_self tx T _ b hT) (kvGet_kvPut_self b (ToByte K) _)]
  rw [hzip, hdec]
  refine ⟨?_, ?_, ?_, ?_⟩
  · intro hg err he
    subst he
    simp [hg]
  · intro hg he hr
    simp [hg, he, hr]
  · intro hg he hr
    simp [hg, he, hr]
  · intro hg
    simp [hg]

/-- Witness of C2: under the shift cipher, the value `A` written with passphrase byte 1 and
read with passphrase byte 0x80 decrypts to the lone byte 0xC2, which is not valid UTF-8. -/
theorem C2_wrong_passphrase_witness :
    ∃ s1, Set shiftCodec usersDb (ascii "users") (ascii "alice") [0x41] [0x01]
        = .ret (s1, none) ∧
      Get shiftCodec s1 (ascii "users") (ascii "alice") [0x80]
        = .ret (s1, [0xC2], some .notUtf8) := by
  obtain ⟨s1, h1, _, h2, _, _⟩ :=
    C2_wrong_passphrase shiftCodec (ascii "app.db") [(ascii "users", [])]
      (some ⟨ascii "app.lock"⟩) (ascii "users") (ascii "alice") [0x41] [0x01] [0x80]
      [0x42] [0x42] [0xC2] none [] (by decide) (by decide) (by decide) (by decide)
      (by decide) (by decide) (by decide)
  exact ⟨s1, h1, h2 (by decide) rfl (by decide)⟩

/-- Counterexample to C2 as stated: with a cipher whose `Decrypt` returns text without an
error under any passphrase, `Get` under a passphrase different from the one used by `Set`
returns a value and a nil error. -/
theorem C2_counterexample :
    ascii "wrongpw" ≠ ascii "pw123" ∧
    ∃ s1, Set plainCodec usersDb (ascii "users") (ascii "alice") (ascii "secret-token")
        (ascii "pw123") = .ret (s1, none) ∧
      Get plainCodec s1 (ascii "users") (ascii "alice") (ascii "wrongpw")
        = .ret (s1, ascii "secret-token", none) := by
  refine ⟨by decide, ?_⟩
  exact ⟨⟨some ⟨ascii "app.db", true,
      [(ascii "users", [(ascii "alice", ascii "secret-token")])]⟩,
    some ⟨ascii "app.lock"⟩⟩, by decide, by decide⟩

/-- Claim C3, amended: on an open store without table `T`, `Get` and `Keys` fail with
"Bucket does not exist", `Remove` fails with the differently worded `Bucket "T" not found!`,
and `Set` fails with the cipher's error when `Encrypt` fails and with "Bucket does not
exist" otherwise; each of them leaves the store as it was, so none creates the table. -/
theorem C3_missing_bucket (c : Codec) (path : Bytes) (tx : Buckets) (g : Option Lock)
    (T K V P : Bytes) (hT : Tx_Bucket tx T = none) :
    Get c ⟨some ⟨path, true, tx⟩, g⟩ T K P
      = .ret (⟨some ⟨path, true, tx⟩, g⟩, [], some .bucketDoesNotExist) ∧
    Keys ⟨some ⟨path, true, tx⟩, g⟩ T
      = .ret (⟨some ⟨path, true, tx⟩, g⟩, [], some .bucketDoesNotExist) ∧
    Remove ⟨some ⟨path, true, tx⟩, g⟩ T K P
      = .ret (⟨some ⟨path, true, tx⟩, g⟩, some (.bucketNotFound T)) ∧
    ((c.Encrypt P V).2 = none → Set c ⟨some ⟨path, true, tx⟩, g⟩ T K V P
      = .ret (⟨some ⟨path, true, tx⟩, g⟩, some .bucketDoesNotExist)) ∧
    (∀ err, (c.Encrypt P V).2 = some err → Set c ⟨some ⟨path, true, tx⟩, g⟩ T K V P
      = .ret (⟨some ⟨path, true, tx⟩, g⟩, some err)) := by
  refine ⟨?_, ?_, ?_, ?_, ?_⟩
  · simp [Get, DB_View, getFn, hT]
  · simp [Keys, DB_View, keysFn, hT]
  · simp [Remove, DB_Update, removeFn, hT]
  · intro he
    simp [Set, DB_Update, setFn, hT, he]
  · intro err he
    simp [Set, DB_Update, setFn, he]

/-- Witness of C3: the table `ghost` was never created in the store that holds `users`. -/
theorem C3_missing_bucket_witness :
    Get plainCodec usersDb (ascii "ghost") (ascii "k") (ascii "pw")
      = .ret (usersDb, [], some .bucketDoesNotExist) ∧
    Remove usersDb (ascii "ghost") (ascii "k") (ascii "pw")
      = .ret (usersDb, some (.bucketNotFound (ascii "ghost"))) :=
  have h := C3_missing_bucket plainCodec (ascii "app.db") [(ascii "users", [])]
    (some ⟨ascii "app.lock"⟩) (ascii "ghost") (ascii "k") (ascii "v") (ascii "pw")
    (by decide)
  ⟨h.1, h.2.2.1⟩

/-- Counterexample to C3 as stated: on a table that was never created, the error of
`Remove` is not the error of `Get`, and `Set` under a cipher whose `Encrypt` fails returns
the cipher's error, which is not a bucket-not-found error. -/
theorem C3_counterexample :
    (∃ e1 e2, Get plainCodec usersDb (ascii "ghost") (ascii "k") (ascii "pw")
        = .ret (usersDb, [], some e1) ∧
      Remove usersDb (ascii "ghost") (ascii "k") (ascii "pw") = .ret (usersDb, some e2) ∧
      e1 ≠ e2) ∧
    Set failingCodec usersDb (ascii "ghost") (ascii "k") (ascii "v") (ascii "pw")
      = .ret (usersDb, some (.external 1)) := by
  refine ⟨⟨.bucketDoesNotExist, .bucketNotFound (ascii "ghost"), by decide, by decide,
    by decide⟩, by decide⟩

/-- Claim C4, what the code does on a nil storage handle: `Get`, `Set`, `Keys` and `Tables`
return "Database not opened", while `CreateTable` and `Remove` have no such guard, reach
`(*bolt.DB).Update` with the nil handle and panic. -/
theorem C4_nil_handle (c : Codec) (g : Option Lock) (T K V P : Bytes) :
    Get c ⟨none, g⟩ T K P = .ret (⟨none, g⟩, [], some .notOpened) ∧
    Set c ⟨none, g⟩ T K V P = .ret (⟨none, g⟩, some .notOpened) ∧
    Keys ⟨none, g⟩ T = .ret (⟨none, g⟩, [], some .notOpened) ∧
    Tables ⟨none, g⟩ = .ret (⟨none, g⟩, [], some .notOpened) ∧
    CreateTable ⟨none, g⟩ T = .panic ∧
    Remove ⟨none, g⟩ T K P = .panic := by
  refine ⟨?_, ?_, ?_, ?_, ?_, ?_⟩ <;>
    simp [Get, Set, Keys, Tables, CreateTable, Remove, DB_Update]

/-- A successful `Open` leaves a non-nil, opened handle and a lock. -/
theorem Open_ok (env : Env) (s0 s1 : Database) (db_file : Bytes)
    (h : Open env s0 db_file = .ret (s1, none)) :
    ∃ path tx l, s1 = ⟨some ⟨path, true, tx⟩, some l⟩ := by
  unfold Open at h
  simp only at h
  split at h
  · exact absurd h (by simp)
  · rename_i self hclosed
    split at h
    · exact absurd h (by simp)
    · split at h
      · rename_i buckets hopen
        simp only [Outcome.ret.injEq, Prod.mk.injEq, and_true] at h
        exact ⟨_, buckets, _, h.symm⟩
      · simp at h

/-- Claim C5, what the code does after `Open` and `Close`: `Close` closes the engine handle
but never resets the field `db`, so the handle is not nil, the guard `nil == self.db` does
not fire, and `Get`, `Set`, `Keys` and `Tables` fail with the engine's own
`ErrDatabaseNotOpen` instead of the guard's "Database not opened". -/
theorem C5_close_keeps_handle (env : Env) (c : Codec) (s0 s1 s2 : Database)
    (db_file T K V P : Bytes)
    (hopen : Open env s0 db_file = .ret (s1, none)) (hclose : Close env s1 = .ret s2) :
    s2.db ≠ none ∧
    Get c s2 T K P = .ret (s2, [], some .boltDatabaseNotOpen) ∧
    Set c s2 T K V P = .ret (s2, some .boltDatabaseNotOpen) ∧
    Keys s2 T = .ret (s2, [], some .boltDatabaseNotOpen) ∧
    Tables s2 = .ret (s2, [], some .boltDatabaseNotOpen) := by
  obtain ⟨path, tx, l, rfl⟩ := Open_ok env s0 s1 db_file hopen
  have hs2 : s2 = ⟨some ⟨path, false, tx⟩, some l⟩ := by
    simp only [Close, DB_Close] at hclose
    split at hclose
    · exact absurd hclose (by simp)
    · simp only [Outcome.ret.injEq] at hclose
      exact hclose.symm
  subst hs2
  refine ⟨by simp, ?_, ?_, ?_, ?_⟩ <;> simp [Get, Set, Keys, Tables, DB_View, DB_Update]

/-- Witness of C5: a new store opened on `app` and closed again. -/
theorem C5_close_keeps_handle_witness :
    (⟨some ⟨ascii "app.db", false, []⟩, some ⟨ascii "app.lock"⟩⟩ : Database).db ≠ none ∧
    Get plainCodec ⟨some ⟨ascii "app.db", false, []⟩, some ⟨ascii "app.lock"⟩⟩
        (ascii "store") (ascii "k") (ascii "pw")
      = .ret (⟨some ⟨ascii "app.db", false, []⟩, some ⟨ascii "app.lock"⟩⟩, [],
          some .boltDatabaseNotOpen) :=
  have h := C5_close_keeps_handle freshEnv plainCodec ⟨none, none⟩
    ⟨some ⟨ascii "app.db", true, []⟩, some ⟨ascii "app.lock"⟩⟩
    ⟨some ⟨ascii "app.db", false, []⟩, some ⟨ascii "app.lock"⟩⟩
    (ascii "app") (ascii "store") (ascii "k") (ascii "v") (ascii "pw")
    (by decide) (by decide)
  ⟨h.1, h.2.1⟩

/-- Claim C6, what the code does on a path that contains `.db` before its suffix: for
`my.db.bak` the database file is `my.db.bak.db` and the lock file is `my.lock.bak.lock`,
every `.db` being rewritten, not `my.db.bak.lock`; for `app` the files are `app.db` and
`app.lock`. -/
theorem C6_lock_path :
    Open freshEnv ⟨none, none⟩ (ascii "my.db.bak")
      = .ret (⟨some ⟨ascii "my.db.bak.db", true, []⟩, some ⟨ascii "my.lock.bak.lock"⟩⟩,
          none) ∧
    ascii "my.lock.bak.lock" ≠ ascii "my.db.bak.lock" ∧
    Open freshEnv ⟨none, none⟩ (ascii "app")
      = .ret (⟨some ⟨ascii "app.db", true, []⟩, some ⟨ascii "app.lock"⟩⟩, none) := by
  refine ⟨by decide, by decide, by decide⟩

/-- Claim C7: on an open store with table `T`, with a compressor that maps the empty
input to the empty output, `Set(T,K,V,P)` returns, the following `Remove(T,K)` succeeds,
and `Get(T,K,P)` on the resulting store fails with "Not found". -/
theorem C7_delete_then_get (c : Codec) (path : Bytes) (tx : Buckets) (g : Option Lock)
    (T K V P : Bytes) (b : Bucket)
    (hT : Tx_Bucket tx T = some b) (hzip : c.DecompressByte [] = []) :
    ∃ s1 e1 s2, Set c ⟨some ⟨path, true, tx⟩, g⟩ T K V P = .ret (s1, e1) ∧
      Remove s1 T K P = .ret (s2, none) ∧
      Get c s2 T K P = .ret (s2, [], some .notFound) := by
  obtain ⟨tx1, b1, e1, hset, hb1⟩ := Set_open c path tx g T K V P b hT
  refine ⟨_, e1, _, hset, Remove_open path tx1 g T K P b1 hb1, ?_⟩
  have hb2 : Tx_Bucket (kvReplace tx1 T (kvDel b1 K)) T = some (kvDel b1 K) :=
    kvGet_kvReplace_self tx1 T _ b1 hb1
  have hv : Bucket_Get (kvDel b1 K) (ToByte K) = none := kvGet_kvDel_self b1 K
  simp [Get, DB_View, getFn, hb2, hv, hzip]

/-- Witness of C7: `alice` is set and removed in the table `users`. -/
theorem C7_delete_then_get_witness :
    ∃ s1 e1 s2, Set plainCodec usersDb (ascii "users") (ascii "alice")
        (ascii "secret-token") (ascii "pw123") = .ret (s1, e1) ∧
      Remove s1 (ascii "users") (ascii "alice") (ascii "pw123") = .ret (s2, none) ∧
      Get plainCodec s2 (ascii "users") (ascii "alice") (ascii "pw123")
        = .ret (s2, [], some .notFound) :=
  C7_delete_then_get plainCodec (ascii "app.db") [(ascii "users", [])]
    (some ⟨ascii "app.lock"⟩) (ascii "users") (ascii "alice") (ascii "secret-token")
    (ascii "pw123") [] (by decide) rfl

/-- Claim C8: on an open store whose table names are kept in strict byte order, for a
non-empty name `T`, `CreateTable(T)` succeeds, a second `CreateTable(T)` succeeds and
returns the very store the first call left, and `Tables()` then lists `T` exactly once. -/
theorem C8_create_table_idempotent (path : Bytes) (tx : Buckets) (g : Option Lock)
    (T : Bytes) (hname : T ≠ []) (hsorted : kvSorted tx) :
    ∃ s1 names, CreateTable ⟨some ⟨path, true, tx⟩, g⟩ T = .ret (s1, none) ∧
      CreateTable s1 T = .ret (s1, none) ∧
      Tables s1 = .ret (s1, names, none) ∧
      names.count T = 1 := by
  have hlen : ¬ T.length = 0 := by
    intro h
    exact hname (List.length_eq_zero.mp h)
  cases hget : kvGet tx T with
  | some b =>
    refine ⟨⟨some ⟨path, true, tx⟩, g⟩, kvKeys tx, ?_, ?_, ?_, ?_⟩
    · simp [CreateTable, DB_Update, Tx_CreateBucketIfNotExists, hlen, hget]
    · simp [CreateTable, DB_Update, Tx_CreateBucketIfNotExists, hlen, hget]
    · simp [Tables, DB_View, tablesFn]
    · exact count_eq_one_of_nodup_mem _ T (kvSorted_nodup tx hsorted)
        (kvGet_some_mem tx T b hget)
  | none =>
    have hget1 : kvGet (kvPut tx T ([] : Bucket)) T = some [] := kvGet_kvPut_self tx T []
    refine ⟨⟨some ⟨path, true, kvPut tx T []⟩, g⟩, kvKeys (kvPut tx T ([] : Bucket)),
      ?_, ?_, ?_, ?_⟩
    · simp [CreateTable, DB_Update, Tx_CreateBucketIfNotExists, hlen, hget]
    · simp [CreateTable, DB_Update, Tx_CreateBucketIfNotExists, hlen, hget1]
    · simp [Tables, DB_View, tablesFn]
    · have hperm := kvKeys_kvPut_perm tx T ([] : Bucket) hget
      have hnd : (T :: kvKeys tx).Nodup :=
        List.nodup_cons.mpr ⟨kvGet_none_not_mem tx T hget, kvSorted_nodup tx hsorted⟩
      exact count_eq_one_of_nodup_mem _ T (hperm.nodup_iff.mpr hnd)
        (hperm.mem_iff.mpr (List.mem_cons_self T _))

/-- Witness of C8: the table `logs` is created twice next to `users`. -/
theorem C8_create_table_idempotent_witness :
    ∃ s1 names, CreateTable usersDb (ascii "logs") = .ret (s1, none) ∧
      CreateTable s1 (ascii "logs") = .ret (s1, none) ∧
      Tables s1 = .ret (s1, names, none) ∧
      names.count (ascii "logs") = 1 :=
  C8_create_table_idempotent (ascii "app.db") [(ascii "users", [])]
    (some ⟨ascii "app.lock"⟩) (ascii "logs") (by decide) (by simp [kvSorted, kvKeys])

/-- Claim C9, amended: on an open store with table `T` holding bucket `b`, for a key of 1
to `MaxKeySize` bytes and a value whose ciphertext `ct` compresses to at most
`MaxValueSize` bytes, `Set(T,K,V,P)` succeeds; afterwards `T` binds the raw bytes of `K` to
`CompressByte(ct)`, every other key of `T` and every other table are as before, and the
list of table names is unchanged. -/
theorem C9_set_frame (c : Codec) (path : Bytes) (tx : Buckets) (g : Option Lock)
    (T K V P ct : Bytes) (b : Bucket)
    (hT : Tx_Bucket tx T = some b)
    (hK0 : 0 < K.length) (hK1 : K.length ≤ MaxKeySize)
    (henc : c.Encrypt P V = (ct, none))
    (hsize : (c.CompressByte ct).length ≤ MaxValueSize) :
    ∃ tx1 b1, Set c ⟨some ⟨path, true, tx⟩, g⟩ T K V P
        = .ret (⟨some ⟨path, true, tx1⟩, g⟩, none) ∧
      Tx_Bucket tx1 T = some b1 ∧
      Bucket_Get b1 K = some (c.CompressByte ct) ∧
      (∀ K', K' ≠ K → Bucket_Get b1 K' = Bucket_Get b K') ∧
      (∀ T', T' ≠ T → Tx_Bucket tx1 T' = Tx_Bucket tx T') ∧
      kvKeys tx1 = kvKeys tx := by
  refine ⟨_, kvPut b (ToByte K) (c.CompressByte ct),
    Set_stores c path tx g T K V P ct b hT hK0 hK1 henc hsize,
    kvGet_kvReplace_self tx T _ b hT, kvGet_kvPut_self b K _, ?_, ?_, kvKeys_kvReplace tx T _⟩
  · intro K' hK'
    exact kvGet_kvPut_ne b K K' _ hK'
  · intro T' hT'
    exact kvGet_kvReplace_ne tx T T' _ hT'

/-- Witness of C9: the scenario of the spec with the identity codec. -/
theorem C9_set_frame_witness :
    ∃ tx1 b1, Set plainCodec usersDb (ascii "users") (ascii "alice") (ascii "secret-token")
        (ascii "pw123") = .ret (⟨some ⟨ascii "app.db", true, tx1⟩,
          some ⟨ascii "app.lock"⟩⟩, none) ∧
      Tx_Bucket tx1 (ascii "users") = some b1 ∧
      Bucket_Get b1 (ascii "alice") = some (ascii "secret-token") :=
  have ⟨tx1, b1, h1, h2, h3, _⟩ := C9_set_frame plainCodec (ascii "app.db")
    [(ascii "users", [])] (some ⟨ascii "app.lock"⟩) (ascii "users") (ascii "alice")
    (ascii "secret-token") (ascii "pw123") (ascii "secret-token") [] (by decide)
    (by decide) (by decide) rfl (by decide)
  ⟨tx1, b1, h1, h2, h3⟩

/-- Counterexample to C9 as stated: a non-empty key of 32769 bytes, one more than the
engine's `MaxKeySize`, on an existing table and with a cipher that succeeds: `Set` does
not succeed, it returns the engine's `ErrKeyTooLarge` and leaves the store as it was. -/
theorem C9_counterexample :
    List.replicate 32769 (97 : Byte) ≠ [] ∧
    plainCodec.Encrypt (ascii "pw123") (ascii "v") = (ascii "v", none) ∧
    Set plainCodec usersDb (ascii "users") (List.replicate 32769 97) (ascii "v")
      (ascii "pw123") = .ret (usersDb, some .boltKeyTooLarge) := by
  have hlen : MaxKeySize < (ToByte (List.replicate 32769 (97 : Byte))).length := by
    simp only [ToByte, List.length_replicate]
    decide
  refine ⟨?_, rfl, ?_⟩
  · intro h
    have h1 := congrArg List.length h
    simp only [List.length_replicate, List.length_nil] at h1
    exact absurd h1 (by decide)
  · exact Set_key_too_large plainCodec (ascii "app.db") [(ascii "users", [])]
      (some ⟨ascii "app.lock"⟩) (ascii "users") (List.replicate 32769 97) (ascii "v")
      (ascii "pw123") (ascii "v") [] (by decide) hlen rfl

/-- Claim C10: on an open store with table `T` in which `K` is not present, `Remove(T,K)`
returns no error and leaves the store exactly as it was. -/
theorem C10_remove_absent (path : Bytes) (tx : Buckets) (g : Option Lock)
    (T K P : Bytes) (b : Bucket)
    (hT : Tx_Bucket tx T = some b) (hK : Bucket_Get b K = none) :
    Remove ⟨some ⟨path, true, tx⟩, g⟩ T K P = .ret (⟨some ⟨path, true, tx⟩, g⟩, none) := by
  rw [Remove_open path tx g T K P b hT, kvDel_absent b K hK, kvReplace_same tx T b hT]

/-- Witness of C10: `bob` was never set in the table `users`. -/
theorem C10_remove_absent_witness :
    Remove usersDb (ascii "users") (ascii "bob") (ascii "pw123") = .ret (usersDb, none) :=
  C10_remove_absent (ascii "app.db") [(ascii "users", [])] (some ⟨ascii "app.lock"⟩)
    (ascii "users") (ascii "bob") (ascii "pw123") [] (by decide) (by decide)

end CryptBolt
